import Mathlib

/-!
Verification development for the Cars.com crawling utility module
(`src/utility.py`).  The Python functions are shallowly embedded as
executable Lean definitions over `List Char` / `String`, with the
process-level side effects (file system, standard output, process exit)
made explicit as parameters and event traces.
-/

set_option maxRecDepth 10000

namespace CarsCom

/-! ### Python string primitives -/

/-- Characters treated as whitespace by Python's `str.strip`
(ASCII subset; the inputs of this program are ASCII). -/
def isPySpace (c : Char) : Bool :=
  c = ' ' || c = '\t' || c = '\n' || c = '\r' || c = '\x0b' || c = '\x0c'

/-- Remove trailing whitespace, as the right half of Python's `str.strip`. -/
def dropTrailingL (l : List Char) : List Char :=
  (l.reverse.dropWhile isPySpace).reverse

/-- Python `str.strip()` on a character list: drop leading, then trailing
whitespace. -/
def pyStripL (l : List Char) : List Char :=
  dropTrailingL (l.dropWhile isPySpace)

/-- Python `str.upper()` on a character list (ASCII). -/
def pyUpperL (l : List Char) : List Char :=
  l.map Char.toUpper

/-- Python `str.split(sep)` for a single-character separator:
`''.split('-') = ['']`, `'a-b'.split('-') = ['a','b']`. -/
def pySplitL (sep : Char) : List Char → List (List Char)
  | [] => [[]]
  | c :: rest =>
    match pySplitL sep rest with
    | [] => if c = sep then [[], []] else [[c]]
    | g :: gs => if c = sep then [] :: g :: gs else (c :: g) :: gs

/-- Python `str.rfind(c)`: index of the last occurrence of `c`, or `-1`. -/
def pyRfind : List Char → Char → Int
  | [], _ => -1
  | a :: rest, c =>
    let r := pyRfind rest c
    if r ≥ 0 then r + 1 else if a = c then 0 else -1

/-- Normalize one endpoint of a Python slice `s[a:b]` to a `Nat` index. -/
def pySliceIdx (len : Nat) (i : Int) : Nat :=
  if i < 0 then (max 0 (i + len)).toNat else min i.toNat len

/-- Python slice `s[a:b]` (with Python's negative-index semantics). -/
def pySliceL (s : List Char) (a b : Int) : List Char :=
  (s.take (pySliceIdx s.length b)).drop (pySliceIdx s.length a)

/-- Python substring containment `needle in haystack` on strings. -/
def pyInStr : List Char → List Char → Bool
  | needle, [] => needle.isEmpty
  | needle, c :: rest => needle.isPrefixOf (c :: rest) || pyInStr needle rest

/-- Python `str.strip()` on a `String`. -/
def pyStrip (s : String) : String :=
  ⟨pyStripL s.data⟩

/-! ### `extract_info_from_csvfilename` -/

/-- The name actually split by `extract_info_from_csvfilename`: the slice
`csv_name[csv_name.rfind('/') + 1 : csv_name.rfind('.')]` is taken only
when the input contains a `'/'`. -/
def processedNameL (s : List Char) : List Char :=
  if s.contains '/' then pySliceL s (pyRfind s '/' + 1) (pyRfind s '.') else s

/-- `extract_info_from_csvfilename` from `src/utility.py` on a character
list.  The unpacking `maker, model, *_, condition = csv_name.split('-')`
raises `ValueError` when fewer than three segments result, which is
modelled by `none`.  The result triple is (maker, model, condition),
each upper-cased. -/
def extract_info_from_csvfilenameL (s : List Char) :
    Option (List Char × List Char × List Char) :=
  match pySplitL '-' (processedNameL s) with
  | maker :: model :: r :: rs =>
    some (pyUpperL maker, pyUpperL model, pyUpperL (rs.getLastD r))
  | _ => none

/-- `extract_info_from_csvfilename` at the `String` level. -/
def extract_info_from_csvfilename (s : String) :
    Option (String × String × String) :=
  (extract_info_from_csvfilenameL s.data).map
    (fun t => (⟨t.1⟩, ⟨t.2.1⟩, ⟨t.2.2⟩))

/-! ### The nested maker/model dataset and `extract_maker_model_codes` -/

/-- One model object of the nested dataset: `nm` (display name) and `id`
(cars.com model code). -/
structure CarModel where
  nm : String
  id : String
deriving DecidableEq

/-- One maker object of the nested dataset: `nm`, `id`, and the ordered
model list `md`. -/
structure CarMaker where
  nm : String
  id : String
  md : List CarModel
deriving DecidableEq

/-- One row of the flat tabular store `model_codes_carscom.csv`
(columns `maker, model, maker code, model code`). -/
structure StoreRow where
  maker : String
  model : String
  makerCode : String
  modelCode : String
deriving DecidableEq

/-- The model-name normalization of `extract_maker_model_codes`:
`model_name = model['nm'].strip()`, then
`if model_name[0] == '-': model_name = model_name[1:].strip()`.
Indexing `model_name[0]` raises `IndexError` when the stripped name is
empty, modelled by `none`. -/
def normalize_model_nameL (nm : List Char) : Option (List Char) :=
  match pyStripL nm with
  | [] => none
  | c :: rest => some (if c = '-' then pyStripL rest else c :: rest)

/-- Total version of `normalize_model_nameL` (used to describe the rows
produced on inputs where no `IndexError` occurs). -/
def model_name_cleanL (nm : List Char) : List Char :=
  match pyStripL nm with
  | [] => []
  | c :: rest => if c = '-' then pyStripL rest else c :: rest

/-- `model_name_cleanL` at the `String` level. -/
def model_name_clean (nm : String) : String :=
  ⟨model_name_cleanL nm.data⟩

/-- Spec-side restatement of the normalization rule, written from the
spec's words for comparison with the code's `model_name_cleanL`:
"maker and model display names are trimmed of leading/trailing
whitespace. If a model name begins with a hyphen, the hyphen and any
following whitespace are removed." -/
def spec_model_trimL (nm : List Char) : List Char :=
  match pyStripL nm with
  | '-' :: rest => rest.dropWhile isPySpace
  | t => t

/-- `spec_model_trimL` at the `String` level. -/
def spec_model_trim (nm : String) : String :=
  ⟨spec_model_trimL nm.data⟩

/-- The inner loop of `extract_maker_model_codes` over one maker's model
list: appends one row per model, in order; `none` when some model name
strips to the empty string (the `IndexError` case). -/
def extract_rows_for_maker (mname mcode : String) :
    List CarModel → Option (List StoreRow)
  | [] => some []
  | m :: ms =>
    match normalize_model_nameL m.nm.data with
    | none => none
    | some mn =>
      match extract_rows_for_maker mname mcode ms with
      | none => none
      | some rest => some (⟨mname, ⟨mn⟩, mcode, m.id⟩ :: rest)

/-- `extract_maker_model_codes` from `src/utility.py`, as the list of csv
rows it builds from the nested dataset (the list under the `all` key),
in iteration order.  The final `write_cars_to_csv` call writes exactly
these rows in this order (modelled separately by `write_cars_to_csv`). -/
def extract_maker_model_codes : List CarMaker → Option (List StoreRow)
  | [] => some []
  | mk :: mks =>
    match extract_rows_for_maker (pyStrip mk.nm) mk.id mk.md with
    | none => none
    | some rs =>
      match extract_maker_model_codes mks with
      | none => none
      | some rest => some (rs ++ rest)

/-! ### `write_cars_to_csv` as an event trace

The filesystem interaction of `write_cars_to_csv` is made explicit: the
two environment facts it branches on (`os.path.exists(csv_name)` and
whether `os.remove` succeeds) become boolean parameters, and the
function's observable behavior becomes the ordered list of side-effect
events it performs. -/

/-- Observable side effects of `write_cars_to_csv` (rows of type `α`). -/
inductive WEvent (α : Type) where
  | removeFile (path : String)
  | printLine (msg : String)
  | exitProcess (code : Nat)
  | writeHeaderRow (header : List String)
  | writeRow (row : α)
deriving DecidableEq

/-- The `with open(...)` block of `write_cars_to_csv`: header row, then
each data row in order, then the summary print. -/
def writeBody {α : Type} (csv_name : String) (csv_header : List String)
    (csv_rows : List α) : List (WEvent α) :=
  WEvent.writeHeaderRow csv_header ::
    csv_rows.map WEvent.writeRow ++
      [WEvent.printLine
        ("Writing " ++ toString csv_rows.length ++
          " cars information to " ++ csv_name)]

/-- `write_cars_to_csv` from `src/utility.py` as its event trace.
`fileExists` is `os.path.exists(csv_name)`; `removeOk` tells whether
`os.remove(csv_name)` succeeds or raises `OSError`. -/
def write_cars_to_csv {α : Type} (csv_name : String)
    (csv_header : List String) (csv_rows : List α)
    (fileExists removeOk : Bool) : List (WEvent α) :=
  if fileExists then
    if removeOk then
      WEvent.removeFile csv_name ::
        WEvent.printLine ("delete previous " ++ csv_name) ::
          writeBody csv_name csv_header csv_rows
    else
      [WEvent.printLine ("error in deleting " ++ csv_name),
       WEvent.exitProcess 1]
  else
    writeBody csv_name csv_header csv_rows

/-! ### The quiz engine `guess_car_brand`

Randomness is factored out as an oracle: each round of the question loop
draws one `(model, brand)` pair by `random.choice` and a shuffled choice
list by `random.sample` + `append` + `random.shuffle`; a `QuizRound`
records the values these draws produced.  User input is a finite list of
strings (`none` results model input exhaustion). -/

/-- `string.ascii_uppercase[:4]`, the valid choice letters. -/
def lettersL : List Char := ['A', 'B', 'C', 'D']

/-- The random draws of one question: the chosen `(model, brand)` pair
and the shuffled choice list (in the code always the 3 sampled brands
plus the correct brand, in shuffled order). -/
structure QuizRound where
  model : String
  brand : String
  choices : List String
deriving DecidableEq

/-- The set of lists `random.sample(population, k)` can return when
`population` has the given distinct elements: `k` draws, pairwise
distinct, all from the population.  `random.sample` raises `ValueError`
exactly when no such list exists (`k` exceeds the population size). -/
def isValidSample (population : List String) (k : Nat) (s : List String) : Prop :=
  s.length = k ∧ s.Nodup ∧ ∀ x ∈ s, x ∈ population

instance (population : List String) (k : Nat) (s : List String) :
    Decidable (isValidSample population k s) := by
  unfold isValidSample; infer_instance

/-- The inner `while True` input loop: read inputs until one whose
upper-cased form passes Python's `user_choice in letters` substring
test; return that upper-cased input and the unread rest.  `none` when
the input stream is exhausted. -/
def readValidChoice : List String → Option (List Char × List String)
  | [] => none
  | s :: rest =>
    let u := pyUpperL s.data
    if pyInStr u lettersL then some (u, rest) else readValidChoice rest

/-- Python `user_choice in d and d[user_choice]` for the per-question
`OrderedDict` `d = OrderedDict(zip(letters, choices))`: the keys are
one-character strings, so a multi-character (or empty) accepted input is
not a key and scores as wrong. -/
def dLookup (d : List (Char × String)) (u : List Char) : Option String :=
  match u with
  | [k] => List.lookup k d
  | _ => none

/-- One iteration of the question loop, given that round's random draws:
consume inputs until a valid choice, then score it against the correct
brand.  Returns (answered correctly?, remaining inputs). -/
def playRound (r : QuizRound) (inputs : List String) :
    Option (Bool × List String) :=
  match readValidChoice inputs with
  | none => none
  | some (u, rest) =>
    let d := lettersL.zip r.choices
    match dLookup d u with
    | some b => some (b == r.brand, rest)
    | none => some (false, rest)

/-- The `while count > 0` question loop: `count` rounds, drawing each
round's randomness from the oracle list `plan`, accumulating the number
of correct answers in `acc`. -/
def quizLoop : Nat → List QuizRound → List String → Nat → Option Nat
  | 0, _, _, acc => some acc
  | _ + 1, [], _, _ => none
  | count + 1, r :: rs, inputs, acc =>
    match playRound r inputs with
    | none => none
    | some (ok, rest) => quizLoop count rs rest (acc + if ok then 1 else 0)

/-- The number of correct answers of a full `guess_car_brand` session
(`num_questions = 10`). -/
def guess_car_brand_score (plan : List QuizRound) (inputs : List String) :
    Option Nat :=
  quizLoop 10 plan inputs 0

/-- The final `"Score {:d}/{:d}".format(num_correct, num_questions)`
line printed by `guess_car_brand`. -/
def guess_car_brand_output (plan : List QuizRound) (inputs : List String) :
    Option String :=
  (guess_car_brand_score plan inputs).map
    (fun n => "Score " ++ toString n ++ "/" ++ toString (10 : Nat))

/-- The letter mapped to the round's correct brand (the first one, when
the brand occurs among the choices). -/
def correctInput (r : QuizRound) : String :=
  ⟨[lettersL.getD (r.choices.indexOf r.brand) 'A']⟩

/-- A letter mapped to a brand other than the round's correct brand
(when one exists; `"Z"` otherwise). -/
def wrongInput (r : QuizRound) : String :=
  match (lettersL.zip r.choices).find? (fun p => p.2 != r.brand) with
  | some p => ⟨[p.1]⟩
  | none => "Z"

/-! ### Loading the store: `brands` and `model_brand_pairs` -/

/-- `brands.add(x)` on Python's `set`, modelled as a duplicate-free
list. -/
def setAdd (s : List String) (x : String) : List String :=
  if x ∈ s then s else x :: s

/-- Python `dict` assignment `d[k] = v`: overwrite in place if the key
is present, else append. -/
def dictInsert : List (String × String) → String → String →
    List (String × String)
  | [], k, v => [(k, v)]
  | (k', v') :: rest, k, v =>
    if k' == k then (k, v) :: rest else (k', v') :: dictInsert rest k v

/-- The row-reading loop of `guess_car_brand`: for each csv row,
`brands.add(line['maker'])` and
`model_brand_pairs[line['model']] = line['maker']`. -/
def loadLoop : List StoreRow → List String × List (String × String) →
    List String × List (String × String)
  | [], st => st
  | r :: rs, (bs, ps) => loadLoop rs (setAdd bs r.maker, dictInsert ps r.model r.maker)

/-- The `(brands, model_brand_pairs)` pair built by `guess_car_brand`
from the store's rows. -/
def load_store (rows : List StoreRow) : List String × List (String × String) :=
  loadLoop rows ([], [])

/-! ### The data-file path of `guess_car_brand` -/

/-- `os.path.join` for POSIX paths (the cases reachable here). -/
def os_path_join (a b : String) : String :=
  if b.startsWith "/" then b
  else if a = "" then b
  else if a.endsWith "/" then a ++ b
  else a ++ "/" ++ b

/-- The opening of `guess_car_brand` together with its observable run:
the `data_file` parameter is immediately shadowed by
`data_file = os.path.join(dir_path, 'model_codes_carscom.csv')`; the
store at that path is read (built first by `extract_maker_model_codes`
when absent), `brands` / `model_brand_pairs` are loaded, and the quiz
session runs.  `fs` maps a path to the rows stored there (if any). -/
def guess_car_brand_run (data_file dir_path : String)
    (fs : String → Option (List StoreRow)) (nested : List CarMaker)
    (plan : List QuizRound) (inputs : List String) :
    Option ((List String × List (String × String)) × Option Nat) :=
  let data_file := os_path_join dir_path "model_codes_carscom.csv"
  let stored : Option (List StoreRow) :=
    match fs data_file with
    | some rows => some rows
    | none => extract_maker_model_codes nested
  match stored with
  | none => none
  | some rows => some (load_store rows, guess_car_brand_score plan inputs)

/-! ## Claim C1 -/

/-- C1 (counterexample): with `BrandSet = {A,B,C,D,E}` and correct brand
`A`, the list `[A,B,C]` is a list `random.sample(brands, 3)` can return,
it contains the correct brand, and appending the correct brand yields a
4-option list with a duplicate.  So the sampled 3 brands do not "never
include that round's correct brand". -/
theorem c1_counterexample :
    isValidSample ["A", "B", "C", "D", "E"] 3 ["A", "B", "C"] ∧
      "A" ∈ (["A", "B", "C"] : List String) ∧
      ¬ ((["A", "B", "C"] : List String) ++ ["A"]).Nodup := by
  decide

/-- C1 (amended): the 3 brands sampled by `random.sample(brands, 3)` in
`guess_car_brand` are pairwise distinct, but the sample may include the
round's correct brand; the 4-option list `choices + [brand]` is
duplicate-free exactly when the sample happened to avoid the correct
brand. -/
theorem c1_sample_nodup_iff (brands s : List String) (brand : String)
    (h : isValidSample brands 3 s) :
    s.Nodup ∧ ((s ++ [brand]).Nodup ↔ brand ∉ s) := by
  obtain ⟨-, hnd, -⟩ := h
  refine ⟨hnd, ?_⟩
  simp [List.nodup_append, hnd]

/-- C1 witness: `c1_sample_nodup_iff` at a concrete sample. -/
theorem c1_witness :
    isValidSample ["A", "B", "C", "D", "E"] 3 ["B", "C", "D"] ∧
      ((["B", "C", "D"] : List String).Nodup ∧
        (((["B", "C", "D"] : List String) ++ ["A"]).Nodup ↔
          "A" ∉ (["B", "C", "D"] : List String))) :=
  ⟨by decide, c1_sample_nodup_iff ["A", "B", "C", "D", "E"] ["B", "C", "D"] "A" (by decide)⟩

/-! ## Claim C2 -/

/-- C2 (counterexample): on the bare filename
`honda-accord-2019-used.csv` (no `'/'`), `extract_info_from_csvfilename`
does not strip the `.csv` extension, so the condition comes out as
`USED.CSV`, not `USED`. -/
theorem c2_counterexample :
    extract_info_from_csvfilename "honda-accord-2019-used.csv" =
        some ("HONDA", "ACCORD", "USED.CSV") ∧
      extract_info_from_csvfilename "honda-accord-2019-used.csv" ≠
        some ("HONDA", "ACCORD", "USED") := by
  decide

/-- C2 (amended): `extract_info_from_csvfilename` strips the directory
part and the extension only when the input contains `'/'`; with a path
prefix, `data/honda-accord-2019-used.csv` parses to
`{maker: HONDA, model: ACCORD, condition: USED}`.  In general only the
first two and the last hyphen-delimited segments of the processed name
are used, upper-cased, middle segments ignored. -/
theorem c2_segments (s maker model r : List Char) (rs : List (List Char))
    (h : pySplitL '-' (processedNameL s) = maker :: model :: r :: rs) :
    extract_info_from_csvfilenameL s =
        some (pyUpperL maker, pyUpperL model, pyUpperL (rs.getLastD r)) ∧
      extract_info_from_csvfilename "data/honda-accord-2019-used.csv" =
        some ("HONDA", "ACCORD", "USED") := by
  refine ⟨?_, by decide⟩
  unfold extract_info_from_csvfilenameL
  rw [h]

/-- C2 witness: `c2_segments` at the concrete name `a-b-c`. -/
theorem c2_witness :
    pySplitL '-' (processedNameL "a-b-c".data) =
        ["a".data, "b".data, "c".data] ∧
      extract_info_from_csvfilenameL "a-b-c".data =
        some (pyUpperL "a".data, pyUpperL "b".data,
          pyUpperL (([] : List (List Char)).getLastD "c".data)) :=
  ⟨by decide,
   (c2_segments "a-b-c".data "a".data "b".data "c".data [] (by decide)).1⟩

/-! ## Claim C3 -/

/-- C3 (counterexample): with exactly 3 distinct makers — fewer than 4 —
`random.sample(brands, 3)` does not fail: a valid sample exists (namely
all three brands). -/
theorem c3_counterexample :
    (["A", "B", "C"] : List String).length < 4 ∧
      (["A", "B", "C"] : List String).Nodup ∧
      isValidSample ["A", "B", "C"] 3 ["A", "B", "C"] := by
  decide

/-- C3 (amended): the `random.sample(brands, num_choices - 1)` step of
`guess_car_brand` samples 3 brands, so it fails exactly when `BrandSet`
has fewer than 3 distinct makers; with 3 or more (in particular with 4
or more) a valid sample exists. -/
theorem c3_sample_succeeds_iff (brands : List String) (h : brands.Nodup) :
    (∃ s, isValidSample brands 3 s) ↔ 3 ≤ brands.length := by
  constructor
  · rintro ⟨s, hl, hnd, hsub⟩
    have hle := (hnd.subperm fun x hx => hsub x hx).length_le
    omega
  · intro h3
    refine ⟨brands.take 3, ?_, ?_, ?_⟩
    · rw [List.length_take]
      omega
    · exact (List.take_sublist 3 brands).nodup h
    · exact fun x hx => List.take_subset _ _ hx

/-- C3 witness: `c3_sample_succeeds_iff` at a concrete 4-maker brand
set. -/
theorem c3_witness :
    (["A", "B", "C", "D"] : List String).Nodup ∧
      ((∃ s, isValidSample ["A", "B", "C", "D"] 3 s) ↔
        3 ≤ (["A", "B", "C", "D"] : List String).length) :=
  ⟨by decide, c3_sample_succeeds_iff ["A", "B", "C", "D"] (by decide)⟩

/-! ## Claim C7 -/

/-- C7: when the destination exists and `os.remove` succeeds,
`write_cars_to_csv` removes the file and prints the notice before any of
the new content is written; when `os.remove` raises `OSError`, it prints
the error notice and exits with status 1, and no row is ever written. -/
theorem c7_delete_then_write {α : Type} (csv_name : String)
    (csv_header : List String) (csv_rows : List α) :
    (write_cars_to_csv csv_name csv_header csv_rows true true =
      WEvent.removeFile csv_name ::
        WEvent.printLine ("delete previous " ++ csv_name) ::
          (WEvent.writeHeaderRow csv_header ::
            csv_rows.map WEvent.writeRow ++
              [WEvent.printLine
                ("Writing " ++ toString csv_rows.length ++
                  " cars information to " ++ csv_name)])) ∧
    (write_cars_to_csv csv_name csv_header csv_rows true false =
      [WEvent.printLine ("error in deleting " ++ csv_name),
       WEvent.exitProcess 1]) ∧
    (∀ r : α,
      WEvent.writeRow r ∉ write_cars_to_csv csv_name csv_header csv_rows true false) := by
  refine ⟨rfl, rfl, fun r => ?_⟩
  simp [write_cars_to_csv]

/-! ## Claim C9 -/

/-- C9: `guess_car_brand` ignores its `data_file` argument — the
parameter is shadowed by the fixed co-located
`model_codes_carscom.csv` path before any use, so two runs differing
only in that argument are observationally identical. -/
theorem c9_data_file_ignored (d₁ d₂ dir_path : String)
    (fs : String → Option (List StoreRow)) (nested : List CarMaker)
    (plan : List QuizRound) (inputs : List String) :
    guess_car_brand_run d₁ dir_path fs nested plan inputs =
      guess_car_brand_run d₂ dir_path fs nested plan inputs := rfl

/-! ## Claim C6 -/

theorem dictInsert_lookup (d : List (String × String)) (k v m : String) :
    List.lookup m (dictInsert d k v) =
      if m = k then some v else List.lookup m d := by
  induction d with
  | nil =>
    by_cases h : m = k
    · simp [dictInsert, List.lookup, h]
    · have hb : (m == k) = false := by simp [h]
      simp [dictInsert, List.lookup, h, hb]
  | cons p rest ih =>
    obtain ⟨k', v'⟩ := p
    by_cases hk : k' = k
    · subst hk
      by_cases hm : m = k'
      · simp [dictInsert, List.lookup, hm]
      · have hb : (m == k') = false := by simp [hm]
        simp [dictInsert, List.lookup, hm, hb]
    · have hkk : (k' == k) = false := by simp [hk]
      by_cases hm : m = k'
      · subst hm
        have hmk : ¬ m = k := hk
        simp [dictInsert, List.lookup, hkk, hmk]
      · have hb : (m == k') = false := by simp [hm]
        simp [dictInsert, List.lookup, hkk, hb, hm, ih]

theorem setAdd_mem (bs : List String) (x b : String) :
    b ∈ setAdd bs x ↔ b = x ∨ b ∈ bs := by
  by_cases h : x ∈ bs
  · rw [setAdd, if_pos h]
    exact ⟨fun hb => Or.inr hb, fun hb => hb.elim (fun e => e ▸ h) id⟩
  · rw [setAdd, if_neg h]
    simp

theorem loadLoop_lookup (rows : List StoreRow) (bs : List String)
    (ps : List (String × String)) (m : String) :
    List.lookup m (loadLoop rows (bs, ps)).2 =
      ((rows.reverse.find? (fun r => r.model == m)).map
          (fun r => r.maker)).or (List.lookup m ps) := by
  induction rows generalizing bs ps with
  | nil => simp [loadLoop]
  | cons r rs ih =>
    simp only [loadLoop, List.reverse_cons, List.find?_append]
    rw [ih]
    cases h : rs.reverse.find? (fun r => r.model == m) with
    | some r' => simp
    | none =>
      rw [dictInsert_lookup]
      by_cases hm : m = r.model
      · subst hm
        simp [List.find?]
      · have hb : (r.model == m) = false := by simp [Ne.symm hm]
        simp [List.find?, hb, hm]

theorem loadLoop_mem_brands (rows : List StoreRow) (bs : List String)
    (ps : List (String × String)) (b : String) :
    b ∈ (loadLoop rows (bs, ps)).1 ↔ b ∈ bs ∨ ∃ r ∈ rows, r.maker = b := by
  induction rows generalizing bs ps with
  | nil => simp [loadLoop]
  | cons r rs ih =>
    simp only [loadLoop, ih, setAdd_mem, List.mem_cons]
    constructor
    · rintro ((rfl | hb) | ⟨r', hr', rfl⟩)
      · exact Or.inr ⟨r, Or.inl rfl, rfl⟩
      · exact Or.inl hb
      · exact Or.inr ⟨r', Or.inr hr', rfl⟩
    · rintro (hb | ⟨r', (rfl | hr'), rfl⟩)
      · exact Or.inl (Or.inr hb)
      · exact Or.inl (Or.inl rfl)
      · exact Or.inr ⟨r', hr', rfl⟩

/-! ### Normalization lemmas for the builder -/

theorem dropTrailingL_eq_rdropWhile (l : List Char) :
    dropTrailingL l = List.rdropWhile isPySpace l := rfl

/-- A nonempty suffix has the same last element as the whole list. -/
theorem getLast_of_suffix {s l : List Char} (hs : s <:+ l) (hne : s ≠ []) :
    ∀ hl : l ≠ [], l.getLast hl = s.getLast hne := by
  obtain ⟨t, rfl⟩ := hs
  intro hl
  rw [List.getLast_append]
  simp [hne]

/-- A stripped name has no trailing whitespace. -/
theorem pyStripL_rdropWhile_fix (nm : List Char) :
    List.rdropWhile isPySpace (pyStripL nm) = pyStripL nm := by
  unfold pyStripL
  rw [dropTrailingL_eq_rdropWhile]
  exact List.rdropWhile_idempotent _ _

/-- Stripping the tail of an already-stripped name only removes leading
whitespace: the key fact behind `model_name[1:].strip()` agreeing with
the spec's "remove the hyphen and any following whitespace". -/
theorem pyStripL_tail (nm : List Char) (c : Char) (rest : List Char)
    (h : pyStripL nm = c :: rest) :
    pyStripL rest = rest.dropWhile isPySpace := by
  have hfix : List.rdropWhile isPySpace (c :: rest) = c :: rest := by
    rw [← h]
    exact pyStripL_rdropWhile_fix nm
  have hrest : List.rdropWhile isPySpace rest = rest := by
    rcases eq_or_ne rest [] with rfl | hne
    · rfl
    · rw [List.rdropWhile_eq_self_iff]
      intro hl
      have hlast := List.rdropWhile_eq_self_iff.mp hfix (List.cons_ne_nil c rest)
      rwa [List.getLast_cons hne] at hlast
  have hdw : List.rdropWhile isPySpace (rest.dropWhile isPySpace) =
      rest.dropWhile isPySpace := by
    rcases eq_or_ne (rest.dropWhile isPySpace) [] with he | hne
    · rw [he]; rfl
    · rw [List.rdropWhile_eq_self_iff]
      intro hl
      have hrne : rest ≠ [] := by
        intro he'
        subst he'
        exact hne rfl
      have hgl := getLast_of_suffix (List.dropWhile_suffix isPySpace) hne hrne
      rw [← hgl]
      exact List.rdropWhile_eq_self_iff.mp hrest hrne
  unfold pyStripL
  rw [dropTrailingL_eq_rdropWhile, hdw]

/-- The code's model-name normalization coincides with the spec's
trimming rule on every input. -/
theorem model_name_cleanL_eq_spec (nm : List Char) :
    model_name_cleanL nm = spec_model_trimL nm := by
  unfold model_name_cleanL spec_model_trimL
  cases h : pyStripL nm with
  | nil => rfl
  | cons c rest =>
    by_cases hc : c = '-'
    · subst hc
      simpa using pyStripL_tail nm '-' rest h
    · simp [hc]

theorem model_name_clean_eq_spec (nm : String) :
    model_name_clean nm = spec_model_trim nm := by
  unfold model_name_clean spec_model_trim
  rw [model_name_cleanL_eq_spec]

/-! ### Row-production lemmas for the builder -/

theorem normalize_model_nameL_eq (nm : List Char) (h : pyStripL nm ≠ []) :
    normalize_model_nameL nm = some (model_name_cleanL nm) := by
  unfold normalize_model_nameL model_name_cleanL
  cases hs : pyStripL nm with
  | nil => exact absurd hs h
  | cons c rest => rfl

theorem extract_rows_for_maker_eq (mname mcode : String) (md : List CarModel)
    (h : ∀ m ∈ md, pyStripL m.nm.data ≠ []) :
    extract_rows_for_maker mname mcode md =
      some (md.map fun m => ⟨mname, model_name_clean m.nm, mcode, m.id⟩) := by
  induction md with
  | nil => rfl
  | cons m ms ih =>
    simp only [extract_rows_for_maker]
    rw [normalize_model_nameL_eq _ (h m (List.mem_cons_self m ms)),
      ih fun m' hm' => h m' (List.mem_cons_of_mem m hm')]
    rfl

theorem extract_maker_model_codes_eq (data : List CarMaker)
    (h : ∀ mk ∈ data, ∀ m ∈ mk.md, pyStripL m.nm.data ≠ []) :
    extract_maker_model_codes data =
      some (data.flatMap fun mk =>
        mk.md.map fun m => ⟨pyStrip mk.nm, model_name_clean m.nm, mk.id, m.id⟩) := by
  induction data with
  | nil => rfl
  | cons mk mks ih =>
    simp only [extract_maker_model_codes]
    rw [extract_rows_for_maker_eq _ _ _ (h mk (List.mem_cons_self mk mks)),
      ih fun mk' hmk' => h mk' (List.mem_cons_of_mem mk hmk')]
    simp [List.flatMap_cons]

theorem extract_rows_for_maker_none (mname mcode : String) (md : List CarModel)
    (h : ∃ m ∈ md, pyStripL m.nm.data = []) :
    extract_rows_for_maker mname mcode md = none := by
  induction md with
  | nil => simp at h
  | cons m ms ih =>
    obtain ⟨m', hm', he⟩ := h
    rcases List.mem_cons.mp hm' with rfl | hm'
    · simp only [extract_rows_for_maker, normalize_model_nameL, he]
    · simp only [extract_rows_for_maker, ih ⟨m', hm', he⟩]
      cases normalize_model_nameL m.nm.data <;> rfl

theorem extract_maker_model_codes_none (data : List CarMaker)
    (h : ∃ mk ∈ data, ∃ m ∈ mk.md, pyStripL m.nm.data = []) :
    extract_maker_model_codes data = none := by
  induction data with
  | nil => simp at h
  | cons mk mks ih =>
    obtain ⟨mk', hmk', hm⟩ := h
    rcases List.mem_cons.mp hmk' with rfl | hmk'
    · simp only [extract_maker_model_codes,
        extract_rows_for_maker_none _ _ _ hm]
    · simp only [extract_maker_model_codes, ih ⟨mk', hmk', hm⟩]
      cases extract_rows_for_maker (pyStrip mk.nm) mk.id mk.md <;> rfl

/-! ## Claim C4 -/

/-- C4: the model name written by `extract_maker_model_codes` follows
the spec's normalization rule exactly — the code's cleaning function
equals the spec's (trim; if the trimmed name starts with `'-'`, drop
the hyphen and the whitespace after it; other names only trimmed) on
every input, and on datasets without empty model names the builder
writes, for each model entry, that spec-normalized model name together
with the trimmed maker name. -/
theorem c4_normalization_rule (nm : String) :
    model_name_clean nm = spec_model_trim nm ∧
    ∀ data : List CarMaker,
      (∀ mk ∈ data, ∀ m ∈ mk.md, pyStripL m.nm.data ≠ []) →
      extract_maker_model_codes data =
        some (data.flatMap fun mk =>
          mk.md.map fun m => ⟨pyStrip mk.nm, spec_model_trim m.nm, mk.id, m.id⟩) := by
  refine ⟨model_name_clean_eq_spec nm, fun data h => ?_⟩
  rw [extract_maker_model_codes_eq data h]
  simp only [model_name_clean_eq_spec]

/-- C4 witness: `c4_normalization_rule` at a hyphenated model name and a
concrete one-maker dataset. -/
theorem c4_witness :
    model_name_clean "- Accord " = spec_model_trim "- Accord " ∧
    extract_maker_model_codes [⟨" Honda ", "20017", [⟨"- Civic ", "21019"⟩]⟩] =
      some (([⟨" Honda ", "20017", [⟨"- Civic ", "21019"⟩]⟩] : List CarMaker).flatMap
        fun mk => mk.md.map fun m => ⟨pyStrip mk.nm, spec_model_trim m.nm, mk.id, m.id⟩) :=
  ⟨(c4_normalization_rule "- Accord ").1,
   (c4_normalization_rule "").2 [⟨" Honda ", "20017", [⟨"- Civic ", "21019"⟩]⟩] (by decide)⟩

/-! ## Claim C5 -/

/-- C5: on every dataset whose model names all strip to something
nonempty, `extract_maker_model_codes` produces exactly one row per
(maker, model) pair, in source iteration order (makers in order, each
maker's models in order), each row carrying the maker's trimmed name and
code and the model's normalized name and code; in particular the number
of rows is the sum over makers of their model-list lengths. -/
theorem c5_one_row_per_pair (data : List CarMaker)
    (h : ∀ mk ∈ data, ∀ m ∈ mk.md, pyStripL m.nm.data ≠ []) :
    extract_maker_model_codes data =
      some (data.flatMap fun mk =>
        mk.md.map fun m => ⟨pyStrip mk.nm, model_name_clean m.nm, mk.id, m.id⟩) ∧
    ∀ rows, extract_maker_model_codes data = some rows →
      rows.length = (data.map fun mk => mk.md.length).sum := by
  have he := extract_maker_model_codes_eq data h
  refine ⟨he, fun rows hr => ?_⟩
  rw [he, Option.some_inj] at hr
  subst hr
  simp [List.length_flatMap, Function.comp_def]

/-- C5 witness: `c5_one_row_per_pair` at a concrete two-maker dataset. -/
theorem c5_witness :
    (∀ mk ∈ ([⟨" Honda ", "20017",
          [⟨"Accord", "21018"⟩, ⟨"- Civic", "21019"⟩]⟩,
        ⟨"BMW", "20005", [⟨"X5", "22001"⟩]⟩] : List CarMaker),
      ∀ m ∈ mk.md, pyStripL m.nm.data ≠ []) ∧
    extract_maker_model_codes
        [⟨" Honda ", "20017", [⟨"Accord", "21018"⟩, ⟨"- Civic", "21019"⟩]⟩,
         ⟨"BMW", "20005", [⟨"X5", "22001"⟩]⟩] =
      some (([⟨" Honda ", "20017", [⟨"Accord", "21018"⟩, ⟨"- Civic", "21019"⟩]⟩,
          ⟨"BMW", "20005", [⟨"X5", "22001"⟩]⟩] : List CarMaker).flatMap
        fun mk => mk.md.map fun m =>
          ⟨pyStrip mk.nm, model_name_clean m.nm, mk.id, m.id⟩) :=
  ⟨by decide,
   (c5_one_row_per_pair
     [⟨" Honda ", "20017", [⟨"Accord", "21018"⟩, ⟨"- Civic", "21019"⟩]⟩,
      ⟨"BMW", "20005", [⟨"X5", "22001"⟩]⟩] (by decide)).1⟩

/-! ## Claim C10 -/

/-- C10: `extract_maker_model_codes` indexes character 0 of each
stripped model name, so it fails (the `IndexError` case, `none`) as soon
as some model display name is empty or whitespace-only; under the
precondition that every model display name strips to a nonempty string,
the builder completes without this error. -/
theorem c10_empty_model_name (data : List CarMaker) :
    ((∃ mk ∈ data, ∃ m ∈ mk.md, pyStripL m.nm.data = []) →
      extract_maker_model_codes data = none) ∧
    ((∀ mk ∈ data, ∀ m ∈ mk.md, pyStripL m.nm.data ≠ []) →
      (extract_maker_model_codes data).isSome) := by
  refine ⟨extract_maker_model_codes_none data, fun h => ?_⟩
  rw [extract_maker_model_codes_eq data h]
  rfl

/-- C10 witness: `c10_empty_model_name` at a whitespace-only model name
and at a clean dataset. -/
theorem c10_witness :
    ((∃ mk ∈ ([⟨"Honda", "20017", [⟨"  ", "21018"⟩]⟩] : List CarMaker),
        ∃ m ∈ mk.md, pyStripL m.nm.data = []) ∧
      extract_maker_model_codes [⟨"Honda", "20017", [⟨"  ", "21018"⟩]⟩] = none) ∧
    ((∀ mk ∈ ([⟨"Honda", "20017", [⟨"Accord", "21018"⟩]⟩] : List CarMaker),
        ∀ m ∈ mk.md, pyStripL m.nm.data ≠ []) ∧
      (extract_maker_model_codes
        [⟨"Honda", "20017", [⟨"Accord", "21018"⟩]⟩]).isSome) :=
  ⟨⟨by decide, (c10_empty_model_name [⟨"Honda", "20017", [⟨"  ", "21018"⟩]⟩]).1 (by decide)⟩,
   ⟨by decide, (c10_empty_model_name [⟨"Honda", "20017", [⟨"Accord", "21018"⟩]⟩]).2 (by decide)⟩⟩

/-- C6: after the loading loop of `guess_car_brand`,
`model_brand_pairs` maps each model name to the maker of the last store
row bearing that model name (last-write-wins), and `brands` holds
exactly the distinct maker names of all rows. -/
theorem c6_load_store_semantics (rows : List StoreRow) :
    (∀ m : String,
      List.lookup m (load_store rows).2 =
        (rows.reverse.find? (fun r => r.model == m)).map (fun r => r.maker)) ∧
    (∀ b : String, b ∈ (load_store rows).1 ↔ ∃ r ∈ rows, r.maker = b) := by
  constructor
  · intro m
    have h := loadLoop_lookup rows [] [] m
    simpa [load_store] using h
  · intro b
    have h := loadLoop_mem_brands rows [] [] b
    simpa [load_store] using h

/-! ## Claim C8 -/

theorem lettersL_nodup : lettersL.Nodup := by decide

theorem lettersL_getD_mem (idx : Nat) : lettersL.getD idx 'A' ∈ lettersL := by
  match idx with
  | 0 => decide
  | 1 => decide
  | 2 => decide
  | 3 => decide
  | n + 4 =>
    have h : lettersL.getD (n + 4) 'A' = 'A' := by
      simp [lettersL, List.getD_cons_succ, List.getD_nil]
    rw [h]
    decide

theorem upper_letter {c : Char} (h : c ∈ lettersL) : pyUpperL [c] = [c] := by
  fin_cases h <;> decide

theorem pyInStr_letter {c : Char} (h : c ∈ lettersL) :
    pyInStr [c] lettersL = true := by
  fin_cases h <;> decide

/-- Looking up the letter at the index of `b` in the letter/choice zip
yields `b` (the zipped keys being distinct). -/
theorem lookup_zip_getD (ks : List Char) (vs : List String) (b : String)
    (hnd : ks.Nodup) (hlen : vs.length ≤ ks.length) (hb : b ∈ vs) :
    List.lookup (ks.getD (vs.indexOf b) 'A') (ks.zip vs) = some b := by
  induction vs generalizing ks with
  | nil => simp at hb
  | cons v vs ih =>
    cases ks with
    | nil => simp at hlen
    | cons k ks =>
      by_cases hv : v = b
      · subst hv
        simp [List.indexOf_cons, List.getD_cons_zero, List.zip_cons_cons,
          List.lookup]
      · have hb' : b ∈ vs := by
          rcases List.mem_cons.mp hb with rfl | h'
          · exact absurd rfl (fun e => hv e.symm)
          · exact h'
        have hbeq : (v == b) = false := by simp [hv]
        rw [List.indexOf_cons, hbeq, cond_false, List.getD_cons_succ,
          List.zip_cons_cons, List.lookup_cons]
        have hlen' : vs.length ≤ ks.length := by
          simpa using hlen
        have hlt : vs.indexOf b < ks.length :=
          lt_of_lt_of_le (List.indexOf_lt_length.mpr hb') hlen'
        have hmem : ks.getD (vs.indexOf b) 'A' ∈ ks := by
          rw [List.getD_eq_getElem?_getD, List.getElem?_eq_getElem hlt]
          exact List.getElem_mem hlt
        have hkne : (ks.getD (vs.indexOf b) 'A' == k) = false := by
          have hk : k ∉ ks := (List.nodup_cons.mp hnd).1
          have hne : ks.getD (vs.indexOf b) 'A' ≠ k := by
            intro e
            rw [e] at hmem
            exact hk hmem
          simp only [beq_eq_false_iff_ne, ne_eq]
          exact hne
        rw [hkne]
        exact ih ks (List.nodup_cons.mp hnd).2 hlen' hb'

/-- With the correct letter as next input, a round is scored correct and
consumes exactly that input. -/
theorem playRound_correct (r : QuizRound) (rest : List String)
    (hb : r.brand ∈ r.choices) (hlen : r.choices.length = 4) :
    playRound r (correctInput r :: rest) = some (true, rest) := by
  have hm := lettersL_getD_mem (r.choices.indexOf r.brand)
  have hlook : List.lookup (lettersL.getD (r.choices.indexOf r.brand) 'A')
      (lettersL.zip r.choices) = some r.brand :=
    lookup_zip_getD lettersL r.choices r.brand lettersL_nodup
      (by rw [hlen]; decide) hb
  have hrv : readValidChoice (correctInput r :: rest) =
      some ([lettersL.getD (r.choices.indexOf r.brand) 'A'], rest) := by
    show (if pyInStr (pyUpperL [lettersL.getD (r.choices.indexOf r.brand) 'A'])
          lettersL = true
        then some (pyUpperL [lettersL.getD (r.choices.indexOf r.brand) 'A'], rest)
        else readValidChoice rest) =
      some ([lettersL.getD (r.choices.indexOf r.brand) 'A'], rest)
    rw [upper_letter hm, pyInStr_letter hm]
    rfl
  unfold playRound
  rw [hrv]
  simp only [dLookup, hlook, beq_self_eq_true]

theorem zip_keys_nodup (ks : List Char) (vs : List String) (h : ks.Nodup) :
    ((ks.zip vs).map Prod.fst).Nodup := by
  induction ks generalizing vs with
  | nil => simp
  | cons k ks ih =>
    cases vs with
    | nil => simp
    | cons v vs =>
      rw [List.zip_cons_cons, List.map_cons, List.nodup_cons]
      constructor
      · intro hmem
        obtain ⟨p, hp, hpk⟩ := List.mem_map.mp hmem
        have hin := (List.of_mem_zip hp).1
        rw [hpk] at hin
        exact (List.nodup_cons.mp h).1 hin
      · exact ih vs (List.nodup_cons.mp h).2

/-- In a list with distinct keys, looking up a member pair's key yields
its value. -/
theorem lookup_of_mem_keys_nodup {d : List (Char × String)}
    {p : Char × String} (hnd : (d.map Prod.fst).Nodup) (hp : p ∈ d) :
    List.lookup p.1 d = some p.2 := by
  induction d with
  | nil => simp at hp
  | cons q d ih =>
    obtain ⟨qk, qv⟩ := q
    rcases List.mem_cons.mp hp with rfl | hp'
    · simp [List.lookup_cons]
    · have hq : (p.1 == qk) = false := by
        have hpk : p.1 ∈ d.map Prod.fst := List.mem_map_of_mem Prod.fst hp'
        have : p.1 ≠ qk := by
          intro e
          rw [e] at hpk
          exact (List.nodup_cons.mp (by simpa using hnd)).1 hpk
        simp [this]
      rw [List.lookup_cons, hq]
      exact ih (List.nodup_cons.mp (by simpa using hnd)).2 hp'

/-- With a letter mapped to a non-correct brand as next input, a round
is scored wrong and consumes exactly that input. -/
theorem playRound_wrong (r : QuizRound) (rest : List String)
    (hw : ((lettersL.zip r.choices).find? (fun p => p.2 != r.brand)).isSome) :
    playRound r (wrongInput r :: rest) = some (false, rest) := by
  obtain ⟨p, hp⟩ := Option.isSome_iff_exists.mp hw
  have hpmem := List.mem_of_find?_eq_some hp
  have hpne := List.find?_some hp
  have hk : p.1 ∈ lettersL := (List.of_mem_zip hpmem).1
  have hlook : List.lookup p.1 (lettersL.zip r.choices) = some p.2 :=
    lookup_of_mem_keys_nodup (zip_keys_nodup _ _ lettersL_nodup) hpmem
  have hne : (p.2 == r.brand) = false := by
    simpa [bne] using hpne
  have hwi : wrongInput r = (⟨[p.1]⟩ : String) := by
    unfold wrongInput
    rw [hp]
  have hrv : readValidChoice (wrongInput r :: rest) = some ([p.1], rest) := by
    rw [hwi]
    show (if pyInStr (pyUpperL [p.1]) lettersL = true
        then some (pyUpperL [p.1], rest)
        else readValidChoice rest) = some ([p.1], rest)
    rw [upper_letter hk, pyInStr_letter hk]
    rfl
  unfold playRound
  rw [hrv]
  simp only [dLookup, hlook, hne]

/-- Answering every round correctly scores every round. -/
theorem quizLoop_correct_all (plan : List QuizRound)
    (h : ∀ r ∈ plan, r.brand ∈ r.choices ∧ r.choices.length = 4) (acc : Nat) :
    quizLoop plan.length plan (plan.map correctInput) acc =
      some (acc + plan.length) := by
  induction plan generalizing acc with
  | nil => rfl
  | cons r rs ih =>
    have hr := h r (List.mem_cons_self r rs)
    rw [List.length_cons, List.map_cons]
    rw [show quizLoop (rs.length + 1) (r :: rs)
        (correctInput r :: rs.map correctInput) acc =
      match playRound r (correctInput r :: rs.map correctInput) with
      | none => none
      | some (ok, rest) =>
        quizLoop rs.length rs rest (acc + if ok then 1 else 0) from rfl]
    rw [playRound_correct r _ hr.1 hr.2]
    show quizLoop rs.length rs (rs.map correctInput)
        (acc + if true = true then 1 else 0) = some (acc + (rs.length + 1))
    rw [if_pos rfl, ih (fun r' h' => h r' (List.mem_cons_of_mem r h')) (acc + 1)]
    congr 1
    omega

/-- Answering every round wrong scores nothing. -/
theorem quizLoop_wrong_all (plan : List QuizRound)
    (h : ∀ r ∈ plan,
      ((lettersL.zip r.choices).find? (fun p => p.2 != r.brand)).isSome)
    (acc : Nat) :
    quizLoop plan.length plan (plan.map wrongInput) acc = some acc := by
  induction plan generalizing acc with
  | nil => rfl
  | cons r rs ih =>
    rw [List.length_cons, List.map_cons]
    rw [show quizLoop (rs.length + 1) (r :: rs)
        (wrongInput r :: rs.map wrongInput) acc =
      match playRound r (wrongInput r :: rs.map wrongInput) with
      | none => none
      | some (ok, rest) =>
        quizLoop rs.length rs rest (acc + if ok then 1 else 0) from rfl]
    rw [playRound_wrong r _ (h r (List.mem_cons_self r rs))]
    show quizLoop rs.length rs (rs.map wrongInput)
        (acc + if false = true then 1 else 0) = some acc
    rw [if_neg Bool.false_ne_true]
    simpa using ih (fun r' h' => h r' (List.mem_cons_of_mem r h')) acc

/-- The question loop looks at no round beyond its count. -/
theorem quizLoop_take (count : Nat) (plan : List QuizRound)
    (inputs : List String) (acc : Nat) :
    quizLoop count plan inputs acc =
      quizLoop count (plan.take count) inputs acc := by
  induction count generalizing plan inputs acc with
  | zero => rfl
  | succ n ih =>
    cases plan with
    | nil => rfl
    | cons r rs =>
      rw [List.take_succ_cons]
      show (match playRound r inputs with
        | none => none
        | some (ok, rest) =>
          quizLoop n rs rest (acc + if ok then 1 else 0)) =
        match playRound r inputs with
        | none => none
        | some (ok, rest) =>
          quizLoop n (rs.take n) rest (acc + if ok then 1 else 0)
      cases playRound r inputs with
      | none => rfl
      | some pr =>
        obtain ⟨ok, rest⟩ := pr
        exact ih rs rest _

/-- The score accumulated by the loop grows by at most one per round. -/
theorem quizLoop_le (count : Nat) (plan : List QuizRound)
    (inputs : List String) (acc n : Nat)
    (h : quizLoop count plan inputs acc = some n) : n ≤ acc + count := by
  induction count generalizing plan inputs acc n with
  | zero =>
    cases plan <;> simp [quizLoop] at h <;> omega
  | succ k ih =>
    cases plan with
    | nil => simp [quizLoop] at h
    | cons r rs =>
      rw [show quizLoop (k + 1) (r :: rs) inputs acc =
        match playRound r inputs with
        | none => none
        | some (ok, rest) =>
          quizLoop k rs rest (acc + if ok then 1 else 0) from rfl] at h
      cases hp : playRound r inputs with
      | none => rw [hp] at h; cases h
      | some pr =>
        rw [hp] at h
        obtain ⟨ok, rest⟩ := pr
        have hb := ih rs rest _ n h
        cases ok <;> simp at hb <;> omega

theorem guess_output_eq (plan : List QuizRound) (inputs : List String)
    (n : Nat) (h : guess_car_brand_score plan inputs = some n) :
    guess_car_brand_output plan inputs =
      some ("Score " ++ toString n ++ "/10") := by
  unfold guess_car_brand_output
  rw [h]
  have h10 : "/" ++ toString (10 : Nat) = "/10" := by decide
  rw [Option.map_some', String.append_assoc, h10]

/-- C8: the quiz session of `guess_car_brand` runs exactly 10 rounds
(later plan entries are never consulted) and reports `Score X/10` with
`X` the number of correct rounds (`X ≤ 10`); a stream answering each
round with the letter mapped to the correct brand scores `10`, one
answering each round with a letter mapped to a wrong brand scores `0`,
and an input whose upper-cased form is not a valid choice is reprompted
without consuming the round or affecting the count. -/
theorem c8_quiz_session :
    (∀ (plan : List QuizRound) (inputs : List String),
      guess_car_brand_score plan inputs =
        guess_car_brand_score (plan.take 10) inputs) ∧
    (∀ (plan : List QuizRound) (inputs : List String) (n : Nat),
      guess_car_brand_score plan inputs = some n →
        n ≤ 10 ∧ guess_car_brand_output plan inputs =
          some ("Score " ++ toString n ++ "/10")) ∧
    (∀ plan : List QuizRound, plan.length = 10 →
      (∀ r ∈ plan, r.brand ∈ r.choices ∧ r.choices.length = 4) →
      guess_car_brand_score plan (plan.map correctInput) = some 10) ∧
    (∀ plan : List QuizRound, plan.length = 10 →
      (∀ r ∈ plan,
        ((lettersL.zip r.choices).find? (fun p => p.2 != r.brand)).isSome) →
      guess_car_brand_score plan (plan.map wrongInput) = some 0) ∧
    (∀ (r : QuizRound) (s : String) (rest : List String),
      pyInStr (pyUpperL s.data) lettersL = false →
      playRound r (s :: rest) = playRound r rest) := by
  refine ⟨fun plan inputs => quizLoop_take 10 plan inputs 0,
    fun plan inputs n h => ⟨by simpa using quizLoop_le 10 plan inputs 0 n h,
      guess_output_eq plan inputs n h⟩,
    fun plan hlen h => ?_, fun plan hlen h => ?_,
    fun r s rest h => ?_⟩
  · unfold guess_car_brand_score
    rw [← hlen]
    simpa using quizLoop_correct_all plan h 0
  · unfold guess_car_brand_score
    rw [← hlen]
    exact quizLoop_wrong_all plan h 0
  · simp [playRound, readValidChoice, h]

/-- C8 witness: `c8_quiz_session` on a 10-round session with a fixed
round, answered all-correct, all-wrong, and with an invalid `"Z"`
reprompted. -/
theorem c8_witness :
    guess_car_brand_score
        (List.replicate 10 (⟨"Accord", "Honda", ["BMW", "Honda", "Audi", "Kia"]⟩ : QuizRound))
        ((List.replicate 10 (⟨"Accord", "Honda", ["BMW", "Honda", "Audi", "Kia"]⟩ : QuizRound)).map correctInput) =
      some 10 ∧
    (10 ≤ 10 ∧
      guess_car_brand_output
        (List.replicate 10 (⟨"Accord", "Honda", ["BMW", "Honda", "Audi", "Kia"]⟩ : QuizRound))
        ((List.replicate 10 (⟨"Accord", "Honda", ["BMW", "Honda", "Audi", "Kia"]⟩ : QuizRound)).map correctInput) =
        some ("Score " ++ toString 10 ++ "/10")) ∧
    guess_car_brand_score
        (List.replicate 10 (⟨"Accord", "Honda", ["BMW", "Honda", "Audi", "Kia"]⟩ : QuizRound))
        ((List.replicate 10 (⟨"Accord", "Honda", ["BMW", "Honda", "Audi", "Kia"]⟩ : QuizRound)).map wrongInput) =
      some 0 ∧
    playRound (⟨"Accord", "Honda", ["BMW", "Honda", "Audi", "Kia"]⟩ : QuizRound)
        ("Z" :: ["B"]) =
      playRound (⟨"Accord", "Honda", ["BMW", "Honda", "Audi", "Kia"]⟩ : QuizRound)
        ["B"] :=
  have h3 := c8_quiz_session.2.2.1
    (List.replicate 10 (⟨"Accord", "Honda", ["BMW", "Honda", "Audi", "Kia"]⟩ : QuizRound))
    (by decide) (by decide)
  ⟨h3, c8_quiz_session.2.1 _ _ 10 h3,
   c8_quiz_session.2.2.2.1
     (List.replicate 10 (⟨"Accord", "Honda", ["BMW", "Honda", "Audi", "Kia"]⟩ : QuizRound))
     (by decide) (by decide),
   c8_quiz_session.2.2.2.2 _ "Z" ["B"] (by decide)⟩

end CarsCom
